import Mathlib

/-!
Verification of the ServerGuard asset-directory API (src/server.js) against its
specification. The server handlers (list, upload, rename, delete) are shallowly
embedded as pure functions over an explicit filesystem state. Paths are modelled
as normalized segment lists, mirroring Node's POSIX path.join semantics: the
joined string is split on the slash character, empty and dot segments are
dropped, and a parent-directory segment pops the previous segment (or is dropped
at the root). A backslash is an ordinary filename character on POSIX and is not
treated as a separator, exactly as in the running code.
-/

namespace ServerGuard

/-- File contents, as a list of bytes. -/
abbrev Bytes := List Nat

/-- An absolute filesystem path as its list of segments (already normalized). -/
abbrev FilePath := List String

/-- Models string.includes(sub) from server.js: substring test on characters. -/
def includesSub (s sub : String) : Bool := decide (sub.data <:+: s.data)

/-- Models the traversal validation in the PUT /api/rename handler
(server.js line 102): newName.includes two dots, slash, or backslash. -/
def badName (s : String) : Bool :=
  includesSub s ".." || includesSub s "/" || includesSub s "\\"

/-- Split a character list on a separator character, keeping empty groups. -/
def splitOnChar (c : Char) : List Char → List (List Char)
  | [] => [[]]
  | a :: as =>
    match splitOnChar c as with
    | [] => [[]]
    | g :: gs => if a = c then [] :: g :: gs else (a :: g) :: gs

/-- The nonempty slash-separated segments of a name, as in POSIX path joining. -/
def splitName (s : String) : List String :=
  ((splitOnChar '/' s.data).map (fun g => String.mk g)).filter (fun t => !(t == ""))

/-- One step of path normalization: a dot segment is dropped, a parent-directory
segment pops the accumulator (a reversed segment stack), anything else pushes. -/
def normStep (acc : List String) (seg : String) : List String :=
  if seg == "." then acc
  else if seg == ".." then acc.tail
  else seg :: acc

/-- Models Node path.join(dir, name) for an absolute normalized dir on POSIX:
append the slash-split segments of name and normalize the result. -/
def joinPath (d : FilePath) (name : String) : FilePath :=
  ((d ++ splitName name).foldl normStep []).reverse

/-- The store directory path.join(dirname, 'public') used by every handler. -/
def publicDir : FilePath := ["app", "public"]

/-- Generic decidable test that pat starts the list l. -/
def beginsWith {α : Type} [DecidableEq α] : List α → List α → Bool
  | [], _ => true
  | _ :: _, [] => false
  | a :: as, b :: bs => decide (a = b) && beginsWith as bs

/-- Generic decidable test that pat ends the list l. -/
def endsWith {α : Type} [DecidableEq α] (pat l : List α) : Bool :=
  beginsWith pat.reverse l.reverse

/-- The filesystem state: files (path to contents) and existing directories. -/
structure FS where
  files : List (FilePath × Bytes)
  dirs : List FilePath
deriving DecidableEq

/-- First association for a path in a file list. -/
def assocFind (p : FilePath) : List (FilePath × Bytes) → Option Bytes
  | [] => none
  | e :: t => if e.1 = p then some e.2 else assocFind p t

/-- The contents stored at a path, if a file is there. -/
def FS.readFile (fs : FS) (p : FilePath) : Option Bytes := assocFind p fs.files

/-- Whether a file is present at the path. -/
def FS.isFile (fs : FS) (p : FilePath) : Bool := (fs.readFile p).isSome

/-- Whether a directory is present at the path. -/
def FS.isDir (fs : FS) (p : FilePath) : Bool := decide (p ∈ fs.dirs)

/-- Models fs.existsSync: true when a file or a directory is at the path. -/
def FS.existsSync (fs : FS) (p : FilePath) : Bool := fs.isFile p || fs.isDir p

/-- Write contents at a path, creating or overwriting (filesystem semantics of
the write stream multer opens: one file per path). -/
def FS.setFile (fs : FS) (p : FilePath) (b : Bytes) : FS :=
  ⟨(p, b) :: fs.files.filter (fun e => !(decide (e.1 = p))), fs.dirs⟩

/-- Models fs.unlink on a file path: drop the file. -/
def FS.removeFile (fs : FS) (p : FilePath) : FS :=
  ⟨fs.files.filter (fun e => !(decide (e.1 = p))), fs.dirs⟩

/-- Every path present in the filesystem, files and directories alike. -/
def FS.paths (fs : FS) : List FilePath := fs.files.map Prod.fst ++ fs.dirs

/-- Rebase p from old root o to new root n when o leads to p, else keep p. -/
def rebase (o n p : FilePath) : FilePath :=
  if beginsWith o p then n ++ p.drop o.length else p

/-- Models fs.rename(o, n): the node at o and everything below it moves to n. -/
def FS.renameFS (fs : FS) (o n : FilePath) : FS :=
  ⟨fs.files.map (fun e => (rebase o n e.1, e.2)), fs.dirs.map (rebase o n)⟩

/-- The entry name p contributes to a readdir of d, when p sits directly in d. -/
def childName (d : FilePath) (p : FilePath) : Option String :=
  if p.dropLast = d then p.getLast? else none

/-- Models fs.readdir(d): the names of the files and directories directly in d. -/
def FS.readdirNames (fs : FS) (d : FilePath) : List String :=
  fs.files.filterMap (fun e => childName d e.1) ++ fs.dirs.filterMap (childName d)

/-- Lowercase an ASCII letter, leave every other character unchanged. -/
def lowerChar (c : Char) : Char :=
  if 'A' ≤ c ∧ c ≤ 'Z' then Char.ofNat (c.toNat + 32) else c

/-- Character-wise ASCII lowercasing. -/
def lowerStr (l : List Char) : List Char := l.map lowerChar

/-- The extension allowlist of the listing filter regex in server.js. -/
def imageExts : List String := ["png", "jpg", "jpeg", "gif", "webp"]

/-- Models the case-insensitive listing filter regex in the GET /api/assets
handler (server.js line 57): a dot then an allowlisted extension at the end. -/
def hasImageExt (s : String) : Bool :=
  imageExts.any (fun e => endsWith ('.' :: e.data) (lowerStr s.data))

/-- One listing entry as the GET /api/assets handler builds it. -/
structure AssetInfo where
  name : String
  url : String
  size : Nat
deriving DecidableEq

/-- The size attached to a listing entry: statSync on path.join(dir, file),
with the contents length for a file and the catch branch giving zero. -/
def entrySize (fs : FS) (d : FilePath) (f : String) : Nat :=
  match fs.readFile (joinPath d f) with
  | some b => b.length
  | none => 0

/-- The outcome of GET /api/assets. -/
inductive ListResult
  | ok (assets : List AssetInfo)
  | scanError
deriving DecidableEq

/-- HTTP status of a listing outcome. -/
def ListResult.status : ListResult → Nat
  | .ok _ => 200
  | .scanError => 500

/-- Models the GET /api/assets handler (server.js lines 43 to 77): an absent
directory yields an empty array, a failing readdir yields status 500, and
otherwise the entries are filtered to image extensions and mapped to records
of name, url (a slash then the name) and size. The readdirFails flag models
the error argument of the fs.readdir callback; readdir also fails when the
path exists but is not a directory. -/
def assetsHandler (fs : FS) (readdirFails : Bool) : ListResult :=
  if !(fs.existsSync publicDir) then .ok []
  else if readdirFails || !(fs.isDir publicDir) then .scanError
  else .ok (((fs.readdirNames publicDir).filter hasImageExt).map
    (fun f => ⟨f, "/" ++ f, entrySize fs publicDir f⟩))

/-- The array a client sees from GET /api/assets; empty when the call fails. -/
def listAssets (fs : FS) (readdirFails : Bool) : List AssetInfo :=
  match assetsHandler fs readdirFails with
  | .ok l => l
  | .scanError => []

/-- An upload request: either no file field, or a file with its client-supplied
name (after the latin1 to utf8 re-decoding, which fixes the wire encoding and
is the identity on the canonical textual name) and its payload bytes. -/
inductive UploadReq
  | noFile
  | file (name : String) (content : Bytes)

/-- The outcome of POST /api/upload. -/
inductive UploadResp
  | noFile400
  | uploaded (filename url : String)
deriving DecidableEq

/-- HTTP status of an upload outcome. -/
def UploadResp.status : UploadResp → Nat
  | .noFile400 => 400
  | .uploaded _ _ => 200

/-- Models the multer destination callback: mkdir the public directory when
existsSync is false (the mkdir is skipped whenever anything exists there). -/
def ensurePublic (fs : FS) : FS :=
  if fs.existsSync publicDir then fs else ⟨fs.files, publicDir :: fs.dirs⟩

/-- Models the POST /api/upload handler with its multer diskStorage (server.js
lines 17 to 34 and 80 to 89): no validation of the client-supplied filename is
performed; the file is written at path.join(publicDir, name), overwriting any
existing file there, and the response carries the filename and its url. -/
def uploadHandler (fs : FS) (req : UploadReq) : UploadResp × FS :=
  match req with
  | .noFile => (.noFile400, fs)
  | .file name content =>
    (.uploaded name ("/" ++ name), (ensurePublic fs).setFile (joinPath publicDir name) content)

/-- The outcome of POST /api/v2/upload in the second server variant. -/
inductive UploadV2Resp
  | multerError500
  | noFile400
  | uploadedV2 (filename url : String)
deriving DecidableEq

/-- HTTP status of a v2 upload outcome: the handler sends 500 for every multer
error (including the file-size limit), 400 for a missing file, 200 on success. -/
def UploadV2Resp.status : UploadV2Resp → Nat
  | .multerError500 => 500
  | .noFile400 => 400
  | .uploadedV2 _ _ => 200

/-- The multer fileSize limit of the second server variant: 10 MiB. -/
def maxFileSize : Nat := 10 * 1024 * 1024

/-- Models the POST /api/v2/upload handler (server.js lines 212 to 215 and 258
to 281): a payload over the 10 MiB limit makes multer raise LIMIT_FILE_SIZE and
remove the partial file, and the handler answers it through the MulterError
branch with status 500; otherwise the file is written as in the first variant. -/
def uploadV2Handler (fs : FS) (req : UploadReq) : UploadV2Resp × FS :=
  match req with
  | .noFile => (.noFile400, fs)
  | .file name content =>
    if content.length > maxFileSize then (.multerError500, ensurePublic fs)
    else (.uploadedV2 name ("/" ++ name),
          (ensurePublic fs).setFile (joinPath publicDir name) content)

/-- The outcome of PUT /api/rename. -/
inductive RenameResp
  | missing400
  | invalid400
  | notFound404
  | conflict409
  | renamed (newName url : String)
deriving DecidableEq

/-- HTTP status of a rename outcome. -/
def RenameResp.status : RenameResp → Nat
  | .missing400 => 400
  | .invalid400 => 400
  | .notFound404 => 404
  | .conflict409 => 409
  | .renamed _ _ => 200

/-- Models the PUT /api/rename handler (server.js lines 92 to 120): missing
names give 400, a newName containing two dots, a slash or a backslash gives
400 invalid, an absent oldPath gives 404, a present newPath gives 409, and
otherwise fs.rename moves oldPath to newPath. Only newName is validated; both
names are joined to the public directory with path.join. -/
def renameHandler (fs : FS) (oldName newName : String) : RenameResp × FS :=
  if oldName == "" || newName == "" then (.missing400, fs)
  else if badName newName then (.invalid400, fs)
  else if !(fs.existsSync (joinPath publicDir oldName)) then (.notFound404, fs)
  else if fs.existsSync (joinPath publicDir newName) then (.conflict409, fs)
  else (.renamed newName ("/" ++ newName),
        fs.renameFS (joinPath publicDir oldName) (joinPath publicDir newName))

/-- The outcome of DELETE /api/delete/:filename. -/
inductive DeleteResp
  | deleted200
  | notFound404
  | unlinkError500
deriving DecidableEq

/-- HTTP status of a delete outcome. -/
def DeleteResp.status : DeleteResp → Nat
  | .deleted200 => 200
  | .notFound404 => 404
  | .unlinkError500 => 500

/-- Models the DELETE /api/delete/:filename handler (server.js lines 123 to
137): the parameter is joined to the public directory with no validation; an
absent path gives 404, fs.unlink removes a file and gives 200, and unlinking
something that is not a file (a directory) fails with 500. -/
def deleteHandler (fs : FS) (filename : String) : DeleteResp × FS :=
  if fs.existsSync (joinPath publicDir filename) then
    if fs.isFile (joinPath publicDir filename) then
      (.deleted200, fs.removeFile (joinPath publicDir filename))
    else (.unlinkError500, fs)
  else (.notFound404, fs)

/-- A segment a real directory entry can have: nonempty, not a dot or parent
token, and containing no slash (the one character POSIX forbids in names). -/
def validSeg (s : String) : Bool :=
  !(s == "") && !(s == ".") && !(s == "..") && !(decide ('/' ∈ s.data))

/-- Well-formedness of a filesystem state: every stored path is made of
segments an actual filesystem can hold, and no path is both a file and a
directory. -/
def FS.WF (fs : FS) : Prop :=
  (∀ p ∈ fs.paths, ∀ s ∈ p, validSeg s = true) ∧
  (∀ p ∈ fs.dirs, fs.isFile p = false)

instance (fs : FS) : Decidable fs.WF := by
  unfold FS.WF; infer_instance

/-- The specification's extension rule, stated independently of the handler:
some allowlisted extension, preceded by a dot, ends the lowercased name. -/
def specAllowedExt (s : String) : Prop :=
  ∃ e ∈ imageExts, ∃ front, front ++ ('.' :: e.data) = lowerStr s.data

/-- A payload one byte over the configured multer limit. -/
def overLimitContent : Bytes := List.replicate (maxFileSize + 1) 0

/-- A store state with one file OUTSIDE the public directory, next to it. -/
def fsOutside : FS := ⟨[(["app", "secret.png"], [7])], [["app"], publicDir]⟩

/-- An empty but existing store directory. -/
def fsEmptyStore : FS := ⟨[], [publicDir]⟩

/-- A store holding a single image a.png of three bytes. -/
def fsOneImage : FS := ⟨[(publicDir ++ ["a.png"], [1, 2, 3])], [["app"], publicDir]⟩

/-- A store holding an uppercase image and a text file. -/
def fsMixed : FS :=
  ⟨[(publicDir ++ ["b.PNG"], [1]), (publicDir ++ ["notes.txt"], [2, 3])], [["app"], publicDir]⟩

/-! ### Helper lemmas about the embedding -/

theorem beginsWith_iff {α : Type} [DecidableEq α] {l₁ l₂ : List α} :
    beginsWith l₁ l₂ = true ↔ ∃ t, l₁ ++ t = l₂ := by
  induction l₁ generalizing l₂ with
  | nil => simp [beginsWith]
  | cons a as ih =>
    cases l₂ with
    | nil => simp [beginsWith]
    | cons b bs =>
      simp only [beginsWith, Bool.and_eq_true, decide_eq_true_eq, ih]
      constructor
      · rintro ⟨rfl, t, rfl⟩; exact ⟨t, rfl⟩
      · rintro ⟨t, h⟩
        rw [List.cons_append, List.cons.injEq] at h
        exact ⟨h.1, t, h.2⟩

theorem beginsWith_self {α : Type} [DecidableEq α] (l : List α) :
    beginsWith l l = true :=
  beginsWith_iff.mpr ⟨[], List.append_nil l⟩

theorem endsWith_iff {α : Type} [DecidableEq α] {pat l : List α} :
    endsWith pat l = true ↔ ∃ s, s ++ pat = l := by
  unfold endsWith
  rw [beginsWith_iff]
  constructor
  · rintro ⟨t, ht⟩
    have h2 := congrArg List.reverse ht
    simp only [List.reverse_append, List.reverse_reverse] at h2
    exact ⟨t.reverse, h2⟩
  · rintro ⟨s, hs⟩
    exact ⟨s.reverse, by rw [← hs]; simp [List.reverse_append]⟩

theorem splitOnChar_of_not_mem {c : Char} {l : List Char} (h : c ∉ l) :
    splitOnChar c l = [l] := by
  induction l with
  | nil => rfl
  | cons a as ih =>
    rw [List.mem_cons, not_or] at h
    have hne : a ≠ c := fun e => h.1 e.symm
    simp [splitOnChar, ih h.2, hne]

theorem splitName_valid {s : String} (h : validSeg s = true) : splitName s = [s] := by
  unfold validSeg at h
  rw [Bool.and_eq_true, Bool.and_eq_true, Bool.and_eq_true] at h
  obtain ⟨⟨⟨h1, _⟩, _⟩, h4⟩ := h
  have hmem : '/' ∉ s.data := by simpa using h4
  unfold splitName
  rw [splitOnChar_of_not_mem hmem]
  show ([s].filter (fun t => !(t == ""))) = [s]
  simp only [List.filter_cons, h1, List.filter_nil]
  rfl

theorem joinPath_validSeg {s : String} (h : validSeg s = true) :
    joinPath publicDir s = publicDir ++ [s] := by
  have hv := h
  unfold validSeg at hv
  rw [Bool.and_eq_true, Bool.and_eq_true, Bool.and_eq_true] at hv
  obtain ⟨⟨⟨_, h2⟩, h3⟩, _⟩ := hv
  unfold joinPath
  rw [splitName_valid h, List.foldl_append]
  have hpd : List.foldl normStep [] publicDir = ["public", "app"] := by decide
  rw [hpd]
  show (normStep ["public", "app"] s).reverse = publicDir ++ [s]
  have h2f : (s == ".") = false := by simpa using h2
  have h3f : (s == "..") = false := by simpa using h3
  unfold normStep
  rw [h2f, h3f]
  simp [publicDir]

theorem childName_eq_some {d p : FilePath} {s : String} :
    childName d p = some s ↔ p = d ++ [s] := by
  constructor
  · intro h
    unfold childName at h
    split at h
    · next heq =>
      obtain ⟨ys, rfl⟩ := List.getLast?_eq_some_iff.mp h
      rw [List.dropLast_concat] at heq
      rw [heq]
    · exact absurd h (by simp)
  · intro h
    subst h
    unfold childName
    simp [List.dropLast_concat, List.getLast?_concat]

theorem mem_readdirNames {fs : FS} {d : FilePath} {s : String} :
    s ∈ fs.readdirNames d ↔ d ++ [s] ∈ fs.paths := by
  unfold FS.readdirNames FS.paths
  rw [List.mem_append, List.mem_append]
  constructor
  · rintro (h | h)
    · rw [List.mem_filterMap] at h
      obtain ⟨e, he, hc⟩ := h
      rw [childName_eq_some] at hc
      exact Or.inl (List.mem_map.mpr ⟨e, he, hc⟩)
    · rw [List.mem_filterMap] at h
      obtain ⟨p, hp, hc⟩ := h
      rw [childName_eq_some] at hc
      exact Or.inr (hc ▸ hp)
  · rintro (h | h)
    · rw [List.mem_map] at h
      obtain ⟨e, he, hfst⟩ := h
      exact Or.inl (List.mem_filterMap.mpr ⟨e, he, childName_eq_some.mpr hfst⟩)
    · exact Or.inr (List.mem_filterMap.mpr ⟨d ++ [s], h, childName_eq_some.mpr rfl⟩)

theorem mem_listAssets {fs : FS} {rdF : Bool} {a : AssetInfo} (h : a ∈ listAssets fs rdF) :
    a.name ∈ fs.readdirNames publicDir ∧ hasImageExt a.name = true := by
  cases hres : assetsHandler fs rdF with
  | scanError =>
    unfold listAssets at h
    rw [hres] at h
    exact absurd h (List.not_mem_nil a)
  | ok l =>
    unfold listAssets at h
    rw [hres] at h
    unfold assetsHandler at hres
    split at hres
    · rw [ListResult.ok.injEq] at hres
      rw [← hres] at h
      exact absurd h (List.not_mem_nil a)
    · split at hres
      · exact ListResult.noConfusion hres
      · rw [ListResult.ok.injEq] at hres
        rw [← hres] at h
        rw [List.mem_map] at h
        obtain ⟨f, hf, ha⟩ := h
        rw [List.mem_filter] at hf
        rw [← ha]
        exact ⟨hf.1, hf.2⟩

theorem renameFS_paths (fs : FS) (o n : FilePath) :
    (fs.renameFS o n).paths = fs.paths.map (rebase o n) := by
  simp [FS.renameFS, FS.paths, List.map_append, List.map_map]

theorem assocFind_filter_ne (p : FilePath) (l : List (FilePath × Bytes)) :
    assocFind p (l.filter (fun e => !(decide (e.1 = p)))) = none := by
  induction l with
  | nil => rfl
  | cons e t ih =>
    by_cases h : e.1 = p
    · simp [List.filter_cons, h, ih]
    · simp [List.filter_cons, h, assocFind, ih]

theorem readFile_setFile_self (fs : FS) (p : FilePath) (b : Bytes) :
    (fs.setFile p b).readFile p = some b := by
  simp [FS.setFile, FS.readFile, assocFind]

theorem removeFile_paths_subset (fs : FS) (p : FilePath) :
    (fs.removeFile p).paths ⊆ fs.paths := by
  intro q hq
  simp only [FS.removeFile, FS.paths] at hq ⊢
  rw [List.mem_append] at hq ⊢
  rcases hq with h | h
  · rw [List.mem_map] at h
    obtain ⟨e, he, hfst⟩ := h
    exact Or.inl (List.mem_map.mpr ⟨e, List.mem_of_mem_filter he, hfst⟩)
  · exact Or.inr h

theorem ensurePublic_files (fs : FS) : (ensurePublic fs).files = fs.files := by
  unfold ensurePublic
  split <;> rfl

theorem ensurePublic_isDir (fs : FS) (h : fs.isFile publicDir = false) :
    (ensurePublic fs).isDir publicDir = true := by
  unfold ensurePublic
  split
  · next hex =>
    unfold FS.existsSync at hex
    rw [h] at hex
    simpa using hex
  · simp [FS.isDir]

theorem not_mem_of_includes_false {s t : String} {c : Char} (ht : t.data = [c])
    (hc : includesSub s t = false) : c ∉ s.data := by
  intro hm
  obtain ⟨u, v, hst⟩ := List.append_of_mem hm
  have : includesSub s t = true := by
    unfold includesSub
    apply decide_eq_true
    exact ⟨u, v, by simp [ht, hst]⟩
  rw [this] at hc
  exact Bool.noConfusion hc

/-! ### Claim theorems -/

/-- C1: a rename request carrying an oldName whose newName contains a
parent-directory token, a slash or a backslash is rejected with the invalid
name response (status 400) and the store is left unchanged, for every store
state and every such newName. -/
theorem rename_invalid_newName_rejected (fs : FS) (oldName newName : String)
    (hold : oldName ≠ "") (hbad : badName newName = true) :
    renameHandler fs oldName newName = (.invalid400, fs) ∧
    RenameResp.invalid400.status = 400 := by
  have hne : newName ≠ "" := by
    intro h
    rw [h] at hbad
    exact absurd hbad (by decide)
  exact ⟨by simp [renameHandler, hold, hne, hbad], rfl⟩

theorem rename_invalid_newName_rejected_w :
    renameHandler fsOneImage "a.png" "../b.png" = (.invalid400, fsOneImage) ∧
    RenameResp.invalid400.status = 400 :=
  rename_invalid_newName_rejected fsOneImage "a.png" "../b.png" (by decide) (by decide)

/-- C2 counterexample: an upload whose client-supplied filename contains a
parent-directory token and a slash succeeds and writes a file at the joined
path, refuting the claim that such uploads are validated and do not succeed. -/
theorem upload_traversal_accepted_cx :
    badName "../evil.png" = true ∧
    (uploadHandler fsEmptyStore (.file "../evil.png" [1])).1 =
      .uploaded "../evil.png" "/../evil.png" ∧
    (uploadHandler fsEmptyStore (.file "../evil.png" [1])).1.status = 200 ∧
    (uploadHandler fsEmptyStore (.file "../evil.png" [1])).2.readFile
      (joinPath publicDir "../evil.png") = some [1] ∧
    joinPath publicDir "../evil.png" = ["app", "evil.png"] := by decide

/-- C2 amended: the upload path performs no traversal validation at all; for
every store state and payload, a filename containing a forbidden token is
path-joined to the store directory (possibly resolving outside it) and the
bytes are written there, with a success response. -/
theorem upload_no_name_validation (fs : FS) (name : String) (content : Bytes)
    (hbad : badName name = true) :
    (uploadHandler fs (.file name content)).1 = .uploaded name ("/" ++ name) ∧
    (uploadHandler fs (.file name content)).1.status = 200 ∧
    (uploadHandler fs (.file name content)).2.readFile (joinPath publicDir name) =
      some content :=
  ⟨rfl, rfl, readFile_setFile_self (ensurePublic fs) _ content⟩

theorem upload_no_name_validation_w :
    (uploadHandler fsEmptyStore (.file "..\\up.png" [9])).1 =
      .uploaded "..\\up.png" ("/" ++ "..\\up.png") ∧
    (uploadHandler fsEmptyStore (.file "..\\up.png" [9])).1.status = 200 ∧
    (uploadHandler fsEmptyStore (.file "..\\up.png" [9])).2.readFile
      (joinPath publicDir "..\\up.png") = some [9] :=
  upload_no_name_validation fsEmptyStore "..\\up.png" [9] (by decide)

/-- C7 counterexample: an upload one byte over the 10 MiB multer limit is
answered through the MulterError branch with status 500, not 400. -/
theorem upload_over_limit_not_400_cx :
    overLimitContent.length > maxFileSize ∧
    (uploadV2Handler fsEmptyStore (.file "big.png" overLimitContent)).1 =
      .multerError500 ∧
    (uploadV2Handler fsEmptyStore (.file "big.png" overLimitContent)).1.status = 500 ∧
    (500 : Nat) ≠ 400 := by
  have hlen : overLimitContent.length > maxFileSize := by
    simp [overLimitContent]
  refine ⟨hlen, ?_, ?_, by decide⟩
  · simp only [uploadV2Handler]
    rw [if_pos hlen]
  · simp only [uploadV2Handler]
    rw [if_pos hlen]
    rfl

/-- C7 amended: an upload whose payload exceeds the configured 10 MiB limit is
rejected with status 500 through the MulterError branch (the same status used
for write errors), no file contents are stored, and status 400 is returned
only for a request with no file. -/
theorem upload_over_limit_500 (fs : FS) (name : String) (content : Bytes)
    (h : content.length > maxFileSize) :
    uploadV2Handler fs (.file name content) = (.multerError500, ensurePublic fs) ∧
    UploadV2Resp.multerError500.status = 500 ∧
    (ensurePublic fs).files = fs.files ∧
    uploadV2Handler fs .noFile = (.noFile400, fs) ∧
    UploadV2Resp.noFile400.status = 400 := by
  refine ⟨?_, rfl, ensurePublic_files fs, rfl, rfl⟩
  simp only [uploadV2Handler]
  rw [if_pos h]

theorem upload_over_limit_500_w :
    uploadV2Handler fsEmptyStore (.file "big.png" overLimitContent) =
      (.multerError500, ensurePublic fsEmptyStore) ∧
    UploadV2Resp.multerError500.status = 500 ∧
    (ensurePublic fsEmptyStore).files = fsEmptyStore.files ∧
    uploadV2Handler fsEmptyStore .noFile = (.noFile400, fsEmptyStore) ∧
    UploadV2Resp.noFile400.status = 400 :=
  upload_over_limit_500 fsEmptyStore "big.png" overLimitContent
    (by simp [overLimitContent])

/-- C8 counterexample: the store directory exists (and is a directory), the
enumeration succeeds, and the listing is empty, refuting the claim that an
empty listing occurs only when the directory is verified absent. -/
theorem list_empty_with_dir_present_cx :
    assetsHandler fsEmptyStore false = .ok [] ∧
    fsEmptyStore.existsSync publicDir = true ∧
    fsEmptyStore.isDir publicDir = true := by decide

/-- C8 amended: the hard-coded empty listing is produced exactly for an absent
store directory; when the directory exists but enumeration fails the handler
returns the fatal scan error (status 500) and never an empty or partial
listing; and a successful enumeration returns the full filtered listing. -/
theorem list_enumeration_error_handling (fs : FS) (rdF : Bool) :
    (fs.existsSync publicDir = false → assetsHandler fs rdF = .ok []) ∧
    (fs.existsSync publicDir = true → rdF = true ∨ fs.isDir publicDir = false →
      assetsHandler fs rdF = .scanError ∧ (assetsHandler fs rdF).status = 500) ∧
    (fs.existsSync publicDir = true → rdF = false → fs.isDir publicDir = true →
      assetsHandler fs rdF =
        .ok (((fs.readdirNames publicDir).filter hasImageExt).map
          (fun f => ⟨f, "/" ++ f, entrySize fs publicDir f⟩))) := by
  refine ⟨?_, ?_, ?_⟩
  · intro h
    simp [assetsHandler, h]
  · intro h hk
    have hcond : (rdF || !(fs.isDir publicDir)) = true := by
      rcases hk with hk | hk <;> simp [hk]
    constructor
    · simp [assetsHandler, h, hcond]
    · simp [assetsHandler, h, hcond, ListResult.status]
  · intro h h1 h2
    simp [assetsHandler, h, h1, h2]

theorem list_enumeration_error_handling_w :
    assetsHandler (⟨[], [["app"]]⟩ : FS) false = .ok [] ∧
    assetsHandler fsEmptyStore true = .scanError ∧
    (assetsHandler fsEmptyStore true).status = 500 :=
  ⟨(list_enumeration_error_handling ⟨[], [["app"]]⟩ false).1 (by decide),
   ((list_enumeration_error_handling fsEmptyStore true).2.1 (by decide) (Or.inl rfl)).1,
   ((list_enumeration_error_handling fsEmptyStore true).2.1 (by decide) (Or.inl rfl)).2⟩

/-- C9: delete's filename parameter and rename's oldName are joined to the
store directory without any traversal check: a parent-directory token makes
the joined path resolve outside the store directory, the delete acts on the
outside file, and the rename moves the outside file; only rename's newName is
validated, as the last conjunct shows. -/
theorem traversal_checked_only_on_rename_newName :
    joinPath publicDir "../secret.png" = ["app", "secret.png"] ∧
    beginsWith publicDir (joinPath publicDir "../secret.png") = false ∧
    deleteHandler fsOutside "../secret.png" = (.deleted200, ⟨[], [["app"], publicDir]⟩) ∧
    renameHandler fsOutside "../secret.png" "stolen.png" =
      (.renamed "stolen.png" "/stolen.png",
       ⟨[(publicDir ++ ["stolen.png"], [7])], [["app"], publicDir]⟩) ∧
    renameHandler fsOutside "x.png" "../y.png" = (.invalid400, fsOutside) := by decide

/-- C10: when the supplied filename already names an existing file, the upload
does not produce any conflict error: it succeeds (status 200), stores the new
bytes at that path, and exactly one file remains under that path. -/
theorem upload_overwrites_in_place (fs : FS) (name : String) (content : Bytes)
    (hex : fs.isFile (joinPath publicDir name) = true) :
    (uploadHandler fs (.file name content)).1 = .uploaded name ("/" ++ name) ∧
    (uploadHandler fs (.file name content)).1.status = 200 ∧
    (uploadHandler fs (.file name content)).2.readFile (joinPath publicDir name) =
      some content ∧
    ((uploadHandler fs (.file name content)).2.files.filter
      (fun e => decide (e.1 = joinPath publicDir name))).length = 1 := by
  refine ⟨rfl, rfl, readFile_setFile_self (ensurePublic fs) _ content, ?_⟩
  show (((ensurePublic fs).setFile (joinPath publicDir name) content).files.filter
    (fun e => decide (e.1 = joinPath publicDir name))).length = 1
  simp [FS.setFile, List.filter_filter]

theorem upload_overwrites_in_place_w :
    (uploadHandler fsOneImage (.file "a.png" [4, 5])).1 = .uploaded "a.png" ("/" ++ "a.png") ∧
    (uploadHandler fsOneImage (.file "a.png" [4, 5])).1.status = 200 ∧
    (uploadHandler fsOneImage (.file "a.png" [4, 5])).2.readFile
      (joinPath publicDir "a.png") = some [4, 5] ∧
    ((uploadHandler fsOneImage (.file "a.png" [4, 5])).2.files.filter
      (fun e => decide (e.1 = joinPath publicDir "a.png"))).length = 1 :=
  upload_overwrites_in_place fsOneImage "a.png" [4, 5] (by decide)

/-- C4: uploading a valid image name (no traversal token, an allowlisted
extension) into a store whose directory is not shadowed by a file makes a
subsequent successful list call include an entry with that name, url a slash
followed by the name, and size the number of uploaded bytes. -/
theorem upload_then_listed (fs : FS) (name : String) (content : Bytes)
    (hbad : badName name = false) (hext : hasImageExt name = true)
    (hpf : fs.isFile publicDir = false) :
    (uploadHandler fs (.file name content)).1 = .uploaded name ("/" ++ name) ∧
    (⟨name, "/" ++ name, content.length⟩ : AssetInfo) ∈
      listAssets (uploadHandler fs (.file name content)).2 false := by
  have hn : name ≠ "" := by
    intro h
    rw [h] at hext
    exact absurd hext (by decide)
  have hd1 : name ≠ "." := by
    intro h
    rw [h] at hext
    exact absurd hext (by decide)
  have hd2 : name ≠ ".." := by
    intro h
    rw [h] at hext
    exact absurd hext (by decide)
  have hslash : includesSub name "/" = false := by
    rw [badName, Bool.or_eq_false_iff, Bool.or_eq_false_iff] at hbad
    exact hbad.1.2
  have hnoslash : '/' ∉ name.data := not_mem_of_includes_false (by decide) hslash
  have hv : validSeg name = true := by
    unfold validSeg
    simp [hn, hd1, hd2, hnoslash]
  have hjoin : joinPath publicDir name = publicDir ++ [name] := joinPath_validSeg hv
  refine ⟨rfl, ?_⟩
  show (⟨name, "/" ++ name, content.length⟩ : AssetInfo) ∈
    listAssets ((ensurePublic fs).setFile (joinPath publicDir name) content) false
  have hdir : ((ensurePublic fs).setFile (joinPath publicDir name) content).isDir
      publicDir = true := ensurePublic_isDir fs hpf
  have hex2 : ((ensurePublic fs).setFile (joinPath publicDir name) content).existsSync
      publicDir = true := by
    unfold FS.existsSync
    rw [hdir]
    simp
  have hhead : (publicDir ++ [name], content) ∈
      ((ensurePublic fs).setFile (joinPath publicDir name) content).files := by
    have hfe : ((ensurePublic fs).setFile (joinPath publicDir name) content).files =
        (publicDir ++ [name], content) ::
          (ensurePublic fs).files.filter
            (fun e => !(decide (e.1 = joinPath publicDir name))) := by
      unfold FS.setFile
      rw [hjoin]
    rw [hfe]
    exact List.mem_cons_self _ _
  have hmemnames : name ∈
      ((ensurePublic fs).setFile (joinPath publicDir name) content).readdirNames
        publicDir := by
    rw [mem_readdirNames]
    unfold FS.paths
    exact List.mem_append_left _ (List.mem_map.mpr ⟨_, hhead, rfl⟩)
  have hsize : entrySize ((ensurePublic fs).setFile (joinPath publicDir name) content)
      publicDir name = content.length := by
    unfold entrySize
    rw [readFile_setFile_self (ensurePublic fs) (joinPath publicDir name) content]
  have hhandler : assetsHandler
      ((ensurePublic fs).setFile (joinPath publicDir name) content) false =
      .ok (((((ensurePublic fs).setFile (joinPath publicDir name) content).readdirNames
            publicDir).filter hasImageExt).map
        (fun f => ⟨f, "/" ++ f,
          entrySize ((ensurePublic fs).setFile (joinPath publicDir name) content)
            publicDir f⟩)) := by
    unfold assetsHandler
    rw [hex2, hdir]
    simp
  unfold listAssets
  rw [hhandler]
  apply List.mem_map.mpr
  exact ⟨name, List.mem_filter.mpr ⟨hmemnames, hext⟩, by rw [hsize]⟩

theorem upload_then_listed_w :
    (uploadHandler fsEmptyStore (.file "avatar.png" [1, 2, 3, 4])).1 =
      .uploaded "avatar.png" ("/" ++ "avatar.png") ∧
    (⟨"avatar.png", "/" ++ "avatar.png", ([1, 2, 3, 4] : Bytes).length⟩ : AssetInfo) ∈
      listAssets (uploadHandler fsEmptyStore (.file "avatar.png" [1, 2, 3, 4])).2 false :=
  upload_then_listed fsEmptyStore "avatar.png" [1, 2, 3, 4]
    (by decide) (by decide) (by decide)

/-- C5: for a name currently stored as a file in a well-formed store, deleting
it twice yields success (status 200) then NotFound (status 404), and after
either call a listing does not include that name. -/
theorem delete_twice_idempotent (fs : FS) (n : String) (rdF : Bool) (hwf : fs.WF)
    (hex : fs.isFile (joinPath publicDir n) = true) :
    (deleteHandler fs n).1 = .deleted200 ∧
    DeleteResp.deleted200.status = 200 ∧
    (deleteHandler (deleteHandler fs n).2 n).1 = .notFound404 ∧
    DeleteResp.notFound404.status = 404 ∧
    (∀ a ∈ listAssets (deleteHandler fs n).2 rdF, a.name ≠ n) ∧
    (∀ a ∈ listAssets (deleteHandler (deleteHandler fs n).2 n).2 rdF, a.name ≠ n) := by
  have hex1 : fs.existsSync (joinPath publicDir n) = true := by
    unfold FS.existsSync
    rw [hex]
    simp
  have hstep : deleteHandler fs n =
      (.deleted200, fs.removeFile (joinPath publicDir n)) := by
    simp [deleteHandler, hex1, hex]
  have hnf : (fs.removeFile (joinPath publicDir n)).isFile (joinPath publicDir n)
      = false := by
    unfold FS.removeFile FS.isFile FS.readFile
    simp [assocFind_filter_ne]
  have hndir : fs.isDir (joinPath publicDir n) = false := by
    by_cases hm : joinPath publicDir n ∈ fs.dirs
    · exact absurd hex (by simp [hwf.2 _ hm])
    · simp [FS.isDir, hm]
  have hex2 : (fs.removeFile (joinPath publicDir n)).existsSync
      (joinPath publicDir n) = false := by
    unfold FS.existsSync
    rw [hnf]
    exact hndir
  have hstep2 : deleteHandler (fs.removeFile (joinPath publicDir n)) n =
      (.notFound404, fs.removeFile (joinPath publicDir n)) := by
    simp [deleteHandler, hex2]
  have hlist : ∀ a ∈ listAssets (fs.removeFile (joinPath publicDir n)) rdF,
      a.name ≠ n := by
    intro a ha heq
    have hmem := (mem_listAssets ha).1
    rw [heq, mem_readdirNames] at hmem
    by_cases hv : validSeg n = true
    · have hP : joinPath publicDir n = publicDir ++ [n] := joinPath_validSeg hv
      unfold FS.paths FS.removeFile at hmem
      rw [List.mem_append] at hmem
      rcases hmem with hm | hm
      · rw [List.mem_map] at hm
        obtain ⟨e, he, hfst⟩ := hm
        rw [List.mem_filter] at he
        have hkey : e.1 = joinPath publicDir n := by rw [hfst, hP]
        have := he.2
        rw [hkey] at this
        simp at this
      · rw [← hP] at hm
        exact absurd hex (by simp [hwf.2 _ hm])
    · have hsub := removeFile_paths_subset fs (joinPath publicDir n) hmem
      have := hwf.1 _ hsub n (List.mem_append_right _ (List.mem_singleton.mpr rfl))
      exact hv this
  refine ⟨by rw [hstep], rfl, ?_, rfl, ?_, ?_⟩
  · rw [hstep]
    rw [hstep2]
  · rw [hstep]
    exact hlist
  · rw [hstep]
    show ∀ a ∈ listAssets (deleteHandler
      (fs.removeFile (joinPath publicDir n)) n).2 rdF, a.name ≠ n
    rw [hstep2]
    exact hlist

theorem delete_twice_idempotent_w :
    (deleteHandler fsOneImage "a.png").1 = .deleted200 ∧
    DeleteResp.deleted200.status = 200 ∧
    (deleteHandler (deleteHandler fsOneImage "a.png").2 "a.png").1 = .notFound404 ∧
    DeleteResp.notFound404.status = 404 ∧
    (∀ a ∈ listAssets (deleteHandler fsOneImage "a.png").2 false, a.name ≠ "a.png") ∧
    (∀ a ∈ listAssets (deleteHandler (deleteHandler fsOneImage "a.png").2 "a.png").2
      false, a.name ≠ "a.png") :=
  delete_twice_idempotent fsOneImage "a.png" false (by decide) (by decide)

/-- C6: every entry of the listing has an allowlisted image extension
(case-insensitively), and an entry of the store directory without such an
extension never appears in the listing. -/
theorem listing_only_image_extensions (fs : FS) (rdF : Bool) :
    (∀ a ∈ listAssets fs rdF, specAllowedExt a.name) ∧
    (∀ f ∈ fs.readdirNames publicDir, ¬ specAllowedExt f →
      ∀ a ∈ listAssets fs rdF, a.name ≠ f) := by
  have key : ∀ a ∈ listAssets fs rdF, specAllowedExt a.name := by
    intro a ha
    have hx := (mem_listAssets ha).2
    unfold hasImageExt at hx
    rw [List.any_eq_true] at hx
    obtain ⟨e, he, hsuf⟩ := hx
    exact ⟨e, he, endsWith_iff.mp hsuf⟩
  refine ⟨key, ?_⟩
  intro f _ hnot a ha heq
  exact hnot (heq ▸ key a ha)

theorem listing_only_image_extensions_w :
    (∀ a ∈ listAssets fsMixed false, specAllowedExt a.name) ∧
    (∀ f ∈ fsMixed.readdirNames publicDir, ¬ specAllowedExt f →
      ∀ a ∈ listAssets fsMixed false, a.name ≠ f) :=
  listing_only_image_extensions fsMixed false

theorem rename_success_excludes (fs : FS) (A B : String) (rdF : Bool) (hwf : fs.WF)
    (hB0 : B ≠ "")
    (hbad : badName B = false)
    (hold : fs.existsSync (joinPath publicDir A) = true)
    (hnew : fs.existsSync (joinPath publicDir B) = false) :
    ¬ (A ∈ (listAssets (fs.renameFS (joinPath publicDir A) (joinPath publicDir B))
            rdF).map AssetInfo.name ∧
       B ∈ (listAssets (fs.renameFS (joinPath publicDir A) (joinPath publicDir B))
            rdF).map AssetInfo.name) := by
  rintro ⟨hA, hB⟩
  rw [badName, Bool.or_eq_false_iff, Bool.or_eq_false_iff] at hbad
  obtain ⟨⟨hdots, hslash⟩, _⟩ := hbad
  have hBnoslash : '/' ∉ B.data := not_mem_of_includes_false (by decide) hslash
  have hBne2 : B ≠ ".." := by
    intro h
    rw [h] at hdots
    exact absurd hdots (by decide)
  have pathsEq := renameFS_paths fs (joinPath publicDir A) (joinPath publicDir B)
  have toPath : ∀ (s : String),
      s ∈ (listAssets (fs.renameFS (joinPath publicDir A) (joinPath publicDir B))
        rdF).map AssetInfo.name →
      publicDir ++ [s] ∈
        (fs.paths).map (rebase (joinPath publicDir A) (joinPath publicDir B)) := by
    intro s hs
    rw [List.mem_map] at hs
    obtain ⟨a, ha, hname⟩ := hs
    have hm := (mem_listAssets ha).1
    rw [hname, mem_readdirNames] at hm
    rwa [pathsEq] at hm
  by_cases hdot : B = "."
  · have hBp := toPath B hB
    rw [List.mem_map] at hBp
    obtain ⟨q, hq, hrb⟩ := hBp
    unfold rebase at hrb
    split at hrb
    · have hnp : joinPath publicDir B = publicDir := by
        rw [hdot]
        decide
      rw [hnp] at hrb
      have hdrop : q.drop (joinPath publicDir A).length = [B] :=
        List.append_cancel_left hrb
      have hmemq : B ∈ q :=
        List.drop_subset _ _ (by rw [hdrop]; exact List.mem_singleton.mpr rfl)
      have hval := hwf.1 q hq B hmemq
      rw [hdot] at hval
      exact absurd hval (by decide)
    · have hval := hwf.1 q hq B
        (by rw [hrb]; exact List.mem_append_right _ (List.mem_singleton.mpr rfl))
      rw [hdot] at hval
      exact absurd hval (by decide)
  · have hvB : validSeg B = true := by
      unfold validSeg
      simp [hB0, hdot, hBne2, hBnoslash]
    have hnp : joinPath publicDir B = publicDir ++ [B] := joinPath_validSeg hvB
    have hAp := toPath A hA
    rw [List.mem_map] at hAp
    obtain ⟨q, hq, hrb⟩ := hAp
    unfold rebase at hrb
    split at hrb
    · rw [hnp, List.append_assoc] at hrb
      have hcons : B :: q.drop (joinPath publicDir A).length = [A] := by
        have := List.append_cancel_left hrb
        simpa using this
      have hBA : B = A ∧ q.drop (joinPath publicDir A).length = [] := by
        simpa using hcons
      have heqp : joinPath publicDir A = joinPath publicDir B := by rw [hBA.1]
      rw [← heqp, hold] at hnew
      exact Bool.noConfusion hnew
    · next hnpre =>
      have hvA : validSeg A = true :=
        hwf.1 q hq A
          (by rw [hrb]; exact List.mem_append_right _ (List.mem_singleton.mpr rfl))
      have hop : joinPath publicDir A = publicDir ++ [A] := joinPath_validSeg hvA
      apply hnpre
      rw [hop, hrb]
      exact beginsWith_self _

/-- C3: rename is atomic from the caller's view: for every well-formed store
state, a successful rename of A to B leaves no listing (under any enumeration
outcome) showing both A and B, and every failed rename returns the store
unchanged, preserving the presence and content of both names. -/
theorem rename_atomic (fs : FS) (A B : String) (rdF : Bool) (hwf : fs.WF) :
    (match renameHandler fs A B with
     | (.renamed _ _, fs2) =>
        ¬ (A ∈ (listAssets fs2 rdF).map AssetInfo.name ∧
           B ∈ (listAssets fs2 rdF).map AssetInfo.name)
     | (_, fs2) => fs2 = fs) := by
  cases h1 : (A == "" || B == "") with
  | true => simp [renameHandler, h1]
  | false =>
    cases h2 : badName B with
    | true => simp [renameHandler, h1, h2]
    | false =>
      cases h3 : fs.existsSync (joinPath publicDir A) with
      | false => simp [renameHandler, h1, h2, h3]
      | true =>
        cases h4 : fs.existsSync (joinPath publicDir B) with
        | true => simp [renameHandler, h1, h2, h3, h4]
        | false =>
          have hB0 : B ≠ "" := by
            rw [Bool.or_eq_false_iff] at h1
            intro h
            have hc := h1.2
            rw [h] at hc
            exact absurd hc (by decide)
          have main := rename_success_excludes fs A B rdF hwf hB0 h2 h3 h4
          simpa [renameHandler, h1, h2, h3, h4] using main

theorem rename_atomic_w :
    (match renameHandler fsOneImage "a.png" "b.png" with
     | (.renamed _ _, fs2) =>
        ¬ ("a.png" ∈ (listAssets fs2 false).map AssetInfo.name ∧
           "b.png" ∈ (listAssets fs2 false).map AssetInfo.name)
     | (_, fs2) => fs2 = fsOneImage) :=
  rename_atomic fsOneImage "a.png" "b.png" false (by decide)

end ServerGuard
